import Mathlib

/-!
Verification of the metadata-registration module of `sequelize-typescript`
(`src/lib/utils/models.ts`) and the `Comment` property decorator.

The module stores per-class metadata (model name, attribute map, define
options, foreign keys) through `Reflect.defineMetadata` / `Reflect.getMetadata`.
We embed the per-class metadata store as a Lean structure `Meta` and each
exported function as a pure state transformer on `Meta`.  JavaScript objects
(option records) are embedded as association lists `List (String × JSVal)`
with first-match lookup and in-place update, and `Object.assign` as a left
fold of key updates, which matches the JS semantics on objects whose own
keys are unique (`KeysNodup`).
-/

set_option autoImplicit false

namespace SequelizeTS

/-- JavaScript primitive values appearing in option records. -/
inductive JSVal where
  | str (s : String)
  | num (n : Int)
  | bool (b : Bool)
  deriving DecidableEq, Repr

/-- A JavaScript object embedded as an association list of own properties. -/
abbrev Obj := List (String × JSVal)

/-- Lookup of a property on an object: first entry with the given key. -/
def getK {α : Type} : List (String × α) → String → Option α
  | [], _ => none
  | (k', v) :: rest, k => if k' = k then some v else getK rest k

/-- JS property assignment `o[k] = v`: overwrite the first entry with key `k`
(keeping its position), or append a new entry at the end. -/
def setK {α : Type} : List (String × α) → String → α → List (String × α)
  | [], k, v => [(k, v)]
  | (k', v') :: rest, k, v =>
      if k' = k then (k', v) :: rest else (k', v') :: setK rest k v

/-- `Object.assign(t, s)`: copy every own property of `s` onto `t`, in order. -/
def objAssign (t s : Obj) : Obj :=
  s.foldl (fun acc kv => setK acc kv.1 kv.2) t

/-- A JS object has unique own keys. -/
def KeysNodup {α : Type} (o : List (String × α)) : Prop :=
  (o.map Prod.fst).Nodup

instance {α : Type} (o : List (String × α)) : Decidable (KeysNodup o) :=
  inferInstanceAs (Decidable (o.map Prod.fst).Nodup)

/-- The attribute map: property name → column-option record. -/
abbrev AttrMap := List (String × Obj)

/-- The `design:type` metadata emitted by the TypeScript compiler for a
property: one of the four supported primitive constructors, or any other
constructor function. -/
inductive DesignType where
  | str
  | num
  | bool
  | date
  | other (name : String)
  deriving DecidableEq, Repr

/-- The sequelize data types used by `getSequelizeTypeByDesignType`. -/
inductive DataType where
  | STRING
  | INTEGER
  | BOOLEAN
  | DATE
  deriving DecidableEq, Repr

/-- `ISequelizeForeignKeyConfig`: the lazy related-class accessor is modelled
by an opaque identifier. -/
structure ISequelizeForeignKeyConfig where
  relatedClassGetter : Nat
  foreignKey : String
  deriving DecidableEq, Repr

/-- The reflect-metadata store attached to one class (the decoration target).
`className` is `target.constructor.name`; each `Option` field is one metadata
key, `none` when `Reflect.getMetadata` would return `undefined`.
`designTypes` is the ambient `design:type` metadata per property. -/
structure Meta where
  className : String
  modelName : Option String
  attributes : Option AttrMap
  options : Option Obj
  foreignKeys : Option (List ISequelizeForeignKeyConfig)
  designTypes : List (String × DesignType)
  deriving DecidableEq, Repr

/-- A class on which no setter of this module has ever run. -/
def freshMeta (className : String) (designTypes : List (String × DesignType)) : Meta :=
  ⟨className, none, none, none, none, designTypes⟩

/-- `DEFAULT_OPTIONS = { timestamps: false }`. -/
def DEFAULT_OPTIONS : Obj := [("timestamps", JSVal.bool false)]

/-- `setModelName`: store the model name under `MODEL_NAME_KEY`. -/
def setModelName (target : Meta) (modelName : String) : Meta :=
  { target with modelName := some modelName }

/-- `getModelName`: read the model name metadata. -/
def getModelName (target : Meta) : Option String :=
  target.modelName

/-- `getAttributes`: read the attributes metadata. -/
def getAttributes (target : Meta) : Option AttrMap :=
  target.attributes

/-- `setAttributes`: store the attributes metadata. -/
def setAttributes (target : Meta) (attributes : AttrMap) : Meta :=
  { target with attributes := some attributes }

/-- `addAttribute`: create the attribute map lazily, then
`attributes[name] = Object.assign({}, options)`. -/
def addAttribute (target : Meta) (name : String) (options : Obj) : Meta :=
  let attributes := (getAttributes target).getD []
  setAttributes target (setK attributes name (objAssign [] options))

/-- The error text thrown by `addAttributeOptions` when the base column
registration is missing. -/
def missingAttrMsg (propertyName className : String) : String :=
  "@Column annotation is missing for \"" ++ propertyName ++ "\" of class \"" ++
    className ++ "\" or annotation order is wrong."

/-- `addAttributeOptions`: merge `options` into the existing attribute record,
`Object.assign(attributes[propertyName], options)`.  A JS `throw` leaves the
store untouched, so the embedding returns the (unchanged) state together with
`some` error message. -/
def addAttributeOptions (target : Meta) (propertyName : String) (options : Obj) :
    Meta × Option String :=
  match getAttributes target with
  | none => (target, some (missingAttrMsg propertyName target.className))
  | some attributes =>
    match getK attributes propertyName with
    | none => (target, some (missingAttrMsg propertyName target.className))
    | some record =>
        (setAttributes target (setK attributes propertyName (objAssign record options)),
         none)

/-- `getOptions`: read the define-options metadata. -/
def getOptions (target : Meta) : Option Obj :=
  target.options

/-- `setOptions`: store `Object.assign({}, DEFAULT_OPTIONS, options)`. -/
def setOptions (target : Meta) (options : Obj) : Meta :=
  { target with options := some (objAssign (objAssign [] DEFAULT_OPTIONS) options) }

/-- `addOptions`: merge `options` onto the stored options (or `{}`) and
store the result through `setOptions`. -/
def addOptions (target : Meta) (options : Obj) : Meta :=
  let _options := (getOptions target).getD []
  setOptions target (objAssign _options options)

/-- The error text thrown by `getSequelizeTypeByDesignType` for an
unsupported design type (whitespace as in the source template literal). -/
def unresolvedTypeMsg (propertyName : String) : String :=
  "Specified type of property '" ++ propertyName ++ "' \x0a            " ++
    "cannot be automatically resolved" ++
    " to a sequelize data type. Please\x0a            define the data type manually"

/-- `getSequelizeTypeByDesignType`: map the `design:type` metadata of the
property to a sequelize data type through the fixed four-entry table. -/
def getSequelizeTypeByDesignType (target : Meta) (propertyName : String) :
    Except String DataType :=
  match getK target.designTypes propertyName with
  | some DesignType.str => Except.ok DataType.STRING
  | some DesignType.num => Except.ok DataType.INTEGER
  | some DesignType.bool => Except.ok DataType.BOOLEAN
  | some DesignType.date => Except.ok DataType.DATE
  | _ => Except.error (unresolvedTypeMsg propertyName)

/-- `getForeignKeys`: read the foreign-key metadata. -/
def getForeignKeys (target : Meta) : Option (List ISequelizeForeignKeyConfig) :=
  target.foreignKeys

/-- `setForeignKeys`: store the foreign-key metadata. -/
def setForeignKeys (target : Meta) (foreignKeys : List ISequelizeForeignKeyConfig) : Meta :=
  { target with foreignKeys := some foreignKeys }

/-- `addForeignKey`: create the list lazily, then push
`{relatedClassGetter, foreignKey: propertyName}` at the end. -/
def addForeignKey (target : Meta) (relatedClassGetter : Nat) (propertyName : String) : Meta :=
  let foreignKeys := (getForeignKeys target).getD []
  setForeignKeys target
    (foreignKeys ++ [⟨relatedClassGetter, propertyName⟩])

/-- The `Comment` decorator (`src/unnamed/part_000`): forwards
`{ comment: value }` to `addAttributeOptions`. -/
def Comment (value : String) (target : Meta) (propertyName : String) :
    Meta × Option String :=
  addAttributeOptions target propertyName [("comment", JSVal.str value)]

/-- Apply a sequence of `addForeignKey` calls in order. -/
def applyFKs (m : Meta) (ps : List (Nat × String)) : Meta :=
  ps.foldl (fun acc p => addForeignKey acc p.1 p.2) m

/-- Apply a sequence of `addAttributeOptions` calls for the same property,
stopping at the first thrown error (a JS `throw` aborts class definition). -/
def applyAttrOpts (m : Meta) (p : String) : List Obj → Meta × Option String
  | [] => (m, none)
  | o :: os =>
    match addAttributeOptions m p o with
    | (m', none) => applyAttrOpts m' p os
    | (m', some e) => (m', some e)

/-- Key-wise union of a sequence of records where the latest record that
carries the key wins. -/
def unionLastWins (records : List Obj) (k : String) : Option JSVal :=
  records.foldl (fun acc o => (getK o k).or acc) none

/-- One call to the model-level option setters. -/
inductive OptCall where
  | set (o : Obj)
  | add (o : Obj)

/-- The record argument of an option call. -/
def OptCall.obj : OptCall → Obj
  | .set o => o
  | .add o => o

/-- Run one option call on the store. -/
def applyOptCall (m : Meta) : OptCall → Meta
  | .set o => setOptions m o
  | .add o => addOptions m o

/-- Run a sequence of `setOptions`/`addOptions` calls in order. -/
def applyOptCalls (m : Meta) (cs : List OptCall) : Meta :=
  cs.foldl applyOptCall m

/-- One option call's effect on the stored `timestamps` value: `setOptions`
resets it to the supplied value or `false`, `addOptions` keeps the previous
value unless the call supplies one. -/
def tsStep (acc : JSVal) : OptCall → JSVal
  | .set o => (getK o "timestamps").getD (JSVal.bool false)
  | .add o => (getK o "timestamps").getD acc

/-- The value the `timestamps` key holds after a sequence of option calls
starting from a class with no stored options. -/
def timestampsSpec (cs : List OptCall) : JSVal :=
  cs.foldl tsStep (JSVal.bool false)

/-- The latest `timestamps` value supplied by any call of the sequence
(the reading used by the original claim). -/
def latestSuppliedTimestamps (cs : List OptCall) : Option JSVal :=
  cs.foldl (fun acc c => (getK c.obj "timestamps").or acc) none

/-- Boolean prefix test on character lists. -/
def isPrefixB : List Char → List Char → Bool
  | [], _ => true
  | _ :: _, [] => false
  | a :: as, b :: bs => (a == b) && isPrefixB as bs

/-- Boolean substring test on character lists. -/
def containsSub (pat : List Char) : List Char → Bool
  | [] => pat.isEmpty
  | c :: rest => isPrefixB pat (c :: rest) || containsSub pat rest

/-- `strContainsSub s pat` holds when `pat` occurs contiguously in `s`. -/
def strContainsSub (s pat : String) : Bool :=
  containsSub pat.data s.data

/-! ### Basic lemmas about the association-list object model -/

theorem getK_setK {α : Type} (t : List (String × α)) (k k' : String) (v : α) :
    getK (setK t k v) k' = if k' = k then some v else getK t k' := by
  induction t with
  | nil =>
    simp only [setK, getK]
    rcases eq_or_ne k k' with h | h
    · subst h; simp
    · simp [h, Ne.symm h]
  | cons hd tl ih =>
    obtain ⟨k0, v0⟩ := hd
    by_cases h0 : k0 = k
    · subst h0
      simp only [setK, if_pos rfl, getK]
      rcases eq_or_ne k0 k' with h1 | h1
      · subst h1; simp
      · simp [h1, Ne.symm h1]
    · simp only [setK, if_neg h0, getK]
      rcases eq_or_ne k0 k' with h1 | h1
      · subst h1
        simp [h0]
      · simp [h1, ih]

theorem getK_eq_some_mem {α : Type} (o : List (String × α)) (k : String) (v : α)
    (h : getK o k = some v) : k ∈ o.map Prod.fst := by
  induction o with
  | nil => simp [getK] at h
  | cons hd tl ih =>
    obtain ⟨k0, v0⟩ := hd
    by_cases h0 : k0 = k
    · subst h0; simp
    · simp [getK, h0] at h
      simp [ih h]

theorem getK_objAssign (s : Obj) (t : Obj) (k : String) (hs : KeysNodup s) :
    getK (objAssign t s) k = (getK s k).or (getK t k) := by
  induction s generalizing t with
  | nil => simp [objAssign, getK, Option.or]
  | cons hd tl ih =>
    obtain ⟨k0, v0⟩ := hd
    have hnd : KeysNodup tl := (List.nodup_cons.mp hs).2
    have hnotin : k0 ∉ tl.map Prod.fst := (List.nodup_cons.mp hs).1
    have hstep : objAssign t ((k0, v0) :: tl) = objAssign (setK t k0 v0) tl := rfl
    rw [hstep, ih _ hnd]
    cases htl : getK tl k with
    | some v =>
      have hk : k ∈ tl.map Prod.fst := getK_eq_some_mem tl k v htl
      have hne : ¬ k0 = k := fun h => hnotin (h ▸ hk)
      simp [getK, htl, hne, Option.or]
    | none =>
      by_cases h0 : k0 = k
      · subst h0
        simp [getK, htl, getK_setK, Option.or]
      · have hne : ¬ k = k0 := fun h => h0 h.symm
        simp [getK, htl, getK_setK, h0, hne, Option.or]

theorem map_fst_setK {α : Type} (t : List (String × α)) (k : String) (v : α) :
    (setK t k v).map Prod.fst =
      if k ∈ t.map Prod.fst then t.map Prod.fst else t.map Prod.fst ++ [k] := by
  induction t with
  | nil => simp [setK]
  | cons hd tl ih =>
    obtain ⟨k1, v1⟩ := hd
    by_cases h1 : k1 = k
    · subst h1; simp [setK]
    · have hne : k ≠ k1 := fun h => h1 h.symm
      simp only [setK, if_neg h1, List.map, ih]
      by_cases hm : k ∈ tl.map Prod.fst
      · simp [hm]
      · simp [hm, hne]

theorem keysNodup_setK {α : Type} (t : List (String × α)) (k : String) (v : α)
    (h : KeysNodup t) : KeysNodup (setK t k v) := by
  unfold KeysNodup at h ⊢
  by_cases hm : k ∈ t.map Prod.fst
  · rw [map_fst_setK, if_pos hm]; exact h
  · rw [map_fst_setK, if_neg hm, List.nodup_append]
    refine ⟨h, List.nodup_singleton _, ?_⟩
    intro a ha hb
    simp only [List.mem_singleton] at hb
    subst hb
    exact hm ha

theorem keysNodup_objAssign (t s : Obj) (h : KeysNodup t) : KeysNodup (objAssign t s) := by
  induction s generalizing t with
  | nil => simpa [objAssign] using h
  | cons hd tl ih =>
    have hstep : objAssign t (hd :: tl) = objAssign (setK t hd.1 hd.2) tl := rfl
    rw [hstep]
    exact ih _ (keysNodup_setK t hd.1 hd.2 h)

/-! ### Claims -/

/-- Claim C7: the model-name accessors round-trip — after `setModelName(target, s)`,
`getModelName(target)` returns `s`, and a later `setModelName(target, s2)` makes it
return `s2` (last write wins). -/
theorem C7_model_name_round_trip (m : Meta) (s s2 : String) :
    getModelName (setModelName m s) = some s ∧
    getModelName (setModelName (setModelName m s) s2) = some s2 :=
  ⟨rfl, rfl⟩

/-- Claim C10: on a class never touched by a setter, `getModelName`,
`getAttributes` and `getOptions` all return `undefined` (here `none`) rather
than failing; in particular `getOptions` does not supply the
`timestamps: false` default on read. -/
theorem C10_fresh_reads_undefined (c : String) (dt : List (String × DesignType)) :
    getModelName (freshMeta c dt) = none ∧
    getAttributes (freshMeta c dt) = none ∧
    getOptions (freshMeta c dt) = none :=
  ⟨rfl, rfl, rfl⟩

theorem getForeignKeys_applyFKs (ps : List (Nat × String)) (m : Meta)
    (l : List ISequelizeForeignKeyConfig) (h : getForeignKeys m = some l) :
    getForeignKeys (applyFKs m ps) =
      some (l ++ ps.map fun q => (⟨q.1, q.2⟩ : ISequelizeForeignKeyConfig)) := by
  induction ps generalizing m l with
  | nil => simpa [applyFKs] using h
  | cons p ps ih =>
    have h1 : getForeignKeys (addForeignKey m p.1 p.2) = some (l ++ [⟨p.1, p.2⟩]) := by
      simp [addForeignKey, getForeignKeys, setForeignKeys] at h ⊢
      simp [show m.foreignKeys = some l from h]
    have hstep : applyFKs m (p :: ps) = applyFKs (addForeignKey m p.1 p.2) ps := rfl
    rw [hstep, ih _ _ h1]
    simp

/-- Claim C5: every `addForeignKey` call appends exactly one
`(getter, propertyName)` pair at the end of the per-class foreign-key list,
creating an empty list first when none exists; after any nonempty sequence of
calls the list is the previous list followed by the new pairs in call order,
duplicates kept and nothing removed or modified. -/
theorem C5_foreign_keys_append (m : Meta) (p : Nat × String) (ps : List (Nat × String)) :
    getForeignKeys (applyFKs m (p :: ps)) =
      some ((getForeignKeys m).getD [] ++
        (p :: ps).map fun q => (⟨q.1, q.2⟩ : ISequelizeForeignKeyConfig)) := by
  have h1 : getForeignKeys (addForeignKey m p.1 p.2) =
      some ((getForeignKeys m).getD [] ++ [⟨p.1, p.2⟩]) := rfl
  have hstep : applyFKs m (p :: ps) = applyFKs (addForeignKey m p.1 p.2) ps := rfl
  rw [hstep, getForeignKeys_applyFKs ps _ _ h1]
  simp

theorem isPrefixB_append (xs ys : List Char) : isPrefixB xs (xs ++ ys) = true := by
  induction xs with
  | nil => rfl
  | cons a as ih => simp [isPrefixB, ih]

theorem containsSub_append (pat pre suf : List Char) :
    containsSub pat (pre ++ (pat ++ suf)) = true := by
  induction pre with
  | nil =>
    cases pat with
    | nil =>
      cases suf with
      | nil => rfl
      | cons c rest => simp [containsSub, isPrefixB]
    | cons c cs =>
      show (isPrefixB (c :: cs) ((c :: cs) ++ suf) || containsSub (c :: cs) (cs ++ suf)) = true
      rw [isPrefixB_append]
      simp
  | cons c pre ih => simp [containsSub, ih]

theorem strContainsSub_of_parts (s pre pat suf : String)
    (hs : s.data = pre.data ++ (pat.data ++ suf.data)) : strContainsSub s pat = true := by
  unfold strContainsSub
  rw [hs]
  exact containsSub_append _ _ _

theorem missingAttrMsg_contains_property (p c : String) :
    strContainsSub (missingAttrMsg p c) p = true := by
  refine strContainsSub_of_parts _ "@Column annotation is missing for \"" p
    ("\" of class \"" ++ c ++ "\" or annotation order is wrong.") ?_
  simp [missingAttrMsg, List.append_assoc]

theorem missingAttrMsg_contains_class (p c : String) :
    strContainsSub (missingAttrMsg p c) c = true := by
  refine strContainsSub_of_parts _
    ("@Column annotation is missing for \"" ++ p ++ "\" of class \"") c
    "\" or annotation order is wrong." ?_
  simp [missingAttrMsg, List.append_assoc]

/-- Claim C2: if no `addAttribute` ever ran for property `p` on the target
(the attribute map is absent, or has no entry for `p`), then
`addAttributeOptions` — in particular via the `Comment` decorator — throws,
leaving the state unchanged, with a message naming both the property and the
class of the target. -/
theorem C2_missing_column_error (m : Meta) (p : String) (opts : Obj) (v : String)
    (h : (getAttributes m).bind (fun a => getK a p) = none) :
    addAttributeOptions m p opts = (m, some (missingAttrMsg p m.className)) ∧
    Comment v m p = (m, some (missingAttrMsg p m.className)) ∧
    strContainsSub (missingAttrMsg p m.className) p = true ∧
    strContainsSub (missingAttrMsg p m.className) m.className = true := by
  have key : ∀ o : Obj, addAttributeOptions m p o = (m, some (missingAttrMsg p m.className)) := by
    intro o
    cases hA : getAttributes m with
    | none => simp [addAttributeOptions, hA]
    | some a =>
      rw [hA] at h
      simp only [Option.some_bind] at h
      simp [addAttributeOptions, hA, h]
  exact ⟨key opts, key [("comment", JSVal.str v)],
    missingAttrMsg_contains_property p m.className,
    missingAttrMsg_contains_class p m.className⟩

/-- Witness for C2: `Comment("x")` applied to property `ghost` of a class
with no prior column decorator throws with a message naming `ghost`. -/
theorem C2_missing_column_error_witness :
    (getAttributes (freshMeta "User" [])).bind
      (fun a => getK a "ghost") = none ∧
    (addAttributeOptions (freshMeta "User" []) "ghost" [] =
        (freshMeta "User" [], some (missingAttrMsg "ghost" "User")) ∧
      Comment "x" (freshMeta "User" []) "ghost" =
        (freshMeta "User" [], some (missingAttrMsg "ghost" "User")) ∧
      strContainsSub (missingAttrMsg "ghost" "User") "ghost" = true ∧
      strContainsSub (missingAttrMsg "ghost" "User") "User" = true) :=
  ⟨rfl, C2_missing_column_error (freshMeta "User" []) "ghost" [] "x" rfl⟩

/-- Claim C8: when `addAttributeOptions` throws the ordering error, the whole
metadata state of the target — attributes, options, model name, and foreign
keys — is exactly what it was before the call. -/
theorem C8_error_atomicity (m : Meta) (p : String) (opts : Obj) (e : String)
    (h : (addAttributeOptions m p opts).2 = some e) :
    getAttributes (addAttributeOptions m p opts).1 = getAttributes m ∧
    getOptions (addAttributeOptions m p opts).1 = getOptions m ∧
    getModelName (addAttributeOptions m p opts).1 = getModelName m ∧
    getForeignKeys (addAttributeOptions m p opts).1 = getForeignKeys m := by
  have hfst : (addAttributeOptions m p opts).1 = m := by
    cases hA : getAttributes m with
    | none => simp [addAttributeOptions, hA]
    | some a =>
      cases hK : getK a p with
      | none => simp [addAttributeOptions, hA, hK]
      | some r => simp [addAttributeOptions, hA, hK] at h
  rw [hfst]
  exact ⟨rfl, rfl, rfl, rfl⟩

/-- Witness for C8: the failing `Comment`-style call on a fresh class leaves
every metadata field untouched. -/
theorem C8_error_atomicity_witness :
    (addAttributeOptions (freshMeta "User" []) "ghost" []).2 =
      some (missingAttrMsg "ghost" "User") ∧
    (getAttributes (addAttributeOptions (freshMeta "User" []) "ghost" []).1 =
        getAttributes (freshMeta "User" []) ∧
      getOptions (addAttributeOptions (freshMeta "User" []) "ghost" []).1 =
        getOptions (freshMeta "User" []) ∧
      getModelName (addAttributeOptions (freshMeta "User" []) "ghost" []).1 =
        getModelName (freshMeta "User" []) ∧
      getForeignKeys (addAttributeOptions (freshMeta "User" []) "ghost" []).1 =
        getForeignKeys (freshMeta "User" [])) :=
  ⟨rfl, C8_error_atomicity (freshMeta "User" []) "ghost" []
    (missingAttrMsg "ghost" "User") rfl⟩

theorem foldl_or_init (os : List Obj) (k : String) (i z : Option JSVal) :
    (os.foldl (fun acc o => (getK o k).or acc) i).or z =
      os.foldl (fun acc o => (getK o k).or acc) (i.or z) := by
  induction os generalizing i with
  | nil => rfl
  | cons o os ih =>
    simp only [List.foldl]
    rw [ih]
    congr 1
    cases getK o k <;> rfl

theorem applyAttrOpts_spec (p : String) (os : List Obj) (hos : ∀ o ∈ os, KeysNodup o)
    (m : Meta) (a : AttrMap) (r : Obj)
    (ha : getAttributes m = some a) (hr : getK a p = some r) :
    ∃ a' r', (applyAttrOpts m p os).2 = none ∧
      getAttributes (applyAttrOpts m p os).1 = some a' ∧
      getK a' p = some r' ∧
      ∀ k, getK r' k = (unionLastWins os k).or (getK r k) := by
  induction os generalizing m a r with
  | nil =>
    exact ⟨a, r, rfl, ha, hr, fun k => rfl⟩
  | cons o os ih =>
    have ho : KeysNodup o := hos o (by simp)
    have hos' : ∀ o' ∈ os, KeysNodup o' := fun o' h => hos o' (by simp [h])
    have hstep : addAttributeOptions m p o =
        (setAttributes m (setK a p (objAssign r o)), none) := by
      simp [addAttributeOptions, ha, hr]
    have happly : applyAttrOpts m p (o :: os) =
        applyAttrOpts (setAttributes m (setK a p (objAssign r o))) p os := by
      simp [applyAttrOpts, hstep]
    have ha1 : getAttributes (setAttributes m (setK a p (objAssign r o))) =
        some (setK a p (objAssign r o)) := rfl
    have hr1 : getK (setK a p (objAssign r o)) p = some (objAssign r o) := by
      rw [getK_setK]; simp
    obtain ⟨a', r', h1, h2, h3, h4⟩ := ih hos' _ _ _ ha1 hr1
    refine ⟨a', r', by rw [happly]; exact h1, by rw [happly]; exact h2, h3, ?_⟩
    intro k
    rw [h4 k, getK_objAssign o r k ho]
    unfold unionLastWins
    simp only [List.foldl]
    rw [foldl_or_init, foldl_or_init]
    congr 1
    cases getK o k <;> rfl

/-- Claim C1: after `addAttribute(target, p, base)` followed by any sequence of
`addAttributeOptions(target, p, oᵢ)` calls, no call throws and the attribute
record for `p` is the key-wise union of `base, o₁, …, oₙ` in which the latest
record carrying a key wins and keys carried by only one record keep their
value. -/
theorem C1_attribute_merge_union (m : Meta) (p : String) (base : Obj) (os : List Obj)
    (hb : KeysNodup base) (hos : ∀ o ∈ os, KeysNodup o) :
    ∃ a r, (applyAttrOpts (addAttribute m p base) p os).2 = none ∧
      getAttributes (applyAttrOpts (addAttribute m p base) p os).1 = some a ∧
      getK a p = some r ∧
      ∀ k, getK r k = unionLastWins (base :: os) k := by
  have ha : getAttributes (addAttribute m p base) =
      some (setK ((getAttributes m).getD []) p (objAssign [] base)) := rfl
  have hr : getK (setK ((getAttributes m).getD []) p (objAssign [] base)) p =
      some (objAssign [] base) := by
    rw [getK_setK]; simp
  obtain ⟨a, r, h1, h2, h3, h4⟩ := applyAttrOpts_spec p os hos _ _ _ ha hr
  refine ⟨a, r, h1, h2, h3, fun k => ?_⟩
  rw [h4 k, getK_objAssign base [] k hb]
  unfold unionLastWins
  simp only [List.foldl]
  rw [foldl_or_init]
  congr 1

/-- Witness for C1: a concrete base record and one merge; the merged record is
the last-wins union of the two. -/
theorem C1_attribute_merge_union_witness :
    KeysNodup [("a", JSVal.num 1), ("b", JSVal.num 2)] ∧
    (∀ o ∈ [[("b", JSVal.num 3), ("c", JSVal.num 4)]], KeysNodup o) ∧
    (∃ a r,
      (applyAttrOpts (addAttribute (freshMeta "User" []) "p"
          [("a", JSVal.num 1), ("b", JSVal.num 2)]) "p"
          [[("b", JSVal.num 3), ("c", JSVal.num 4)]]).2 = none ∧
      getAttributes (applyAttrOpts (addAttribute (freshMeta "User" []) "p"
          [("a", JSVal.num 1), ("b", JSVal.num 2)]) "p"
          [[("b", JSVal.num 3), ("c", JSVal.num 4)]]).1 = some a ∧
      getK a "p" = some r ∧
      ∀ k, getK r k = unionLastWins
        [[("a", JSVal.num 1), ("b", JSVal.num 2)],
         [("b", JSVal.num 3), ("c", JSVal.num 4)]] k) :=
  ⟨by decide, by decide,
    C1_attribute_merge_union (freshMeta "User" []) "p"
      [("a", JSVal.num 1), ("b", JSVal.num 2)]
      [[("b", JSVal.num 3), ("c", JSVal.num 4)]] (by decide) (by decide)⟩

/-- Claim C6: after registering `title` as a column with options `opts` and
then applying `Comment("headline")`, the attribute record for `title` is
`opts` extended with `comment = "headline"`, every other field of `opts`
unchanged. -/
theorem C6_comment_extends_record (m : Meta) (opts : Obj) (h : KeysNodup opts) :
    ∃ m2 a r,
      Comment "headline" (addAttribute m "title" opts) "title" = (m2, none) ∧
      getAttributes m2 = some a ∧
      getK a "title" = some r ∧
      getK r "comment" = some (JSVal.str "headline") ∧
      ∀ k, k ≠ "comment" → getK r k = getK opts k := by
  have h1 : getAttributes (addAttribute m "title" opts) =
      some (setK ((getAttributes m).getD []) "title" (objAssign [] opts)) := rfl
  have h2 : getK (setK ((getAttributes m).getD []) "title" (objAssign [] opts)) "title" =
      some (objAssign [] opts) := by
    rw [getK_setK]; simp
  have h3 : Comment "headline" (addAttribute m "title" opts) "title" =
      (setAttributes (addAttribute m "title" opts)
        (setK (setK ((getAttributes m).getD []) "title" (objAssign [] opts)) "title"
          (objAssign (objAssign [] opts) [("comment", JSVal.str "headline")])), none) := by
    simp [Comment, addAttributeOptions, h1, h2]
  refine ⟨_, _, objAssign (objAssign [] opts) [("comment", JSVal.str "headline")],
    h3, rfl, ?_, ?_, ?_⟩
  · rw [getK_setK]; simp
  · show getK (setK (objAssign [] opts) "comment" (JSVal.str "headline")) "comment" = _
    rw [getK_setK]; simp
  · intro k hk
    show getK (setK (objAssign [] opts) "comment" (JSVal.str "headline")) k = _
    rw [getK_setK, if_neg hk, getK_objAssign opts [] k h]
    cases getK opts k <;> rfl

/-- Witness for C6: a concrete column record for `title` gains
`comment = "headline"` and keeps its other field. -/
theorem C6_comment_extends_record_witness :
    KeysNodup [("allowNull", JSVal.bool true)] ∧
    (∃ m2 a r,
      Comment "headline" (addAttribute (freshMeta "Post" []) "title"
          [("allowNull", JSVal.bool true)]) "title" = (m2, none) ∧
      getAttributes m2 = some a ∧
      getK a "title" = some r ∧
      getK r "comment" = some (JSVal.str "headline") ∧
      ∀ k, k ≠ "comment" →
        getK r k = getK [("allowNull", JSVal.bool true)] k) :=
  ⟨by decide,
    C6_comment_extends_record (freshMeta "Post" [])
      [("allowNull", JSVal.bool true)] (by decide)⟩

/-- Claim C9: a (second) `addAttribute(target, p, opts2)` call replaces the
whole attribute record for `p` with a copy of `opts2`, whatever the earlier
record contained — including fields merged in by `addAttributeOptions`; it
never merges with the earlier record. -/
theorem C9_readd_clobbers (m : Meta) (p : String) (opts2 : Obj) (h : KeysNodup opts2) :
    ∃ a r, getAttributes (addAttribute m p opts2) = some a ∧
      getK a p = some r ∧
      ∀ k, getK r k = getK opts2 k := by
  refine ⟨_, objAssign [] opts2, rfl, ?_, ?_⟩
  · rw [getK_setK]; simp
  · intro k
    rw [getK_objAssign opts2 [] k h]
    cases getK opts2 k <;> rfl

/-- Witness for C9: after a column registration and a merged comment, a second
`addAttribute` leaves a record equal to the new options only — the merged
comment is gone. -/
theorem C9_readd_clobbers_witness :
    KeysNodup [("y", JSVal.num 2)] ∧
    (∃ a r,
      getAttributes (addAttribute
        (Comment "c" (addAttribute (freshMeta "M" []) "p" [("x", JSVal.num 1)]) "p").1
        "p" [("y", JSVal.num 2)]) = some a ∧
      getK a "p" = some r ∧
      ∀ k, getK r k = getK [("y", JSVal.num 2)] k) :=
  ⟨by decide,
    C9_readd_clobbers
      (Comment "c" (addAttribute (freshMeta "M" []) "p" [("x", JSVal.num 1)]) "p").1
      "p" [("y", JSVal.num 2)] (by decide)⟩

/-- Claim C3: `getSequelizeTypeByDesignType` realises exactly the fixed
four-entry table over the property's declared design type — `String ↦ STRING`,
`Number ↦ INTEGER`, `Boolean ↦ BOOLEAN`, `Date ↦ DATE` — and for every other
declared type, including absent metadata, throws an error containing
"cannot be automatically resolved" and naming the property. -/
theorem C3_design_type_mapping (m : Meta) (p : String) :
    (getK m.designTypes p = some DesignType.str →
      getSequelizeTypeByDesignType m p = Except.ok DataType.STRING) ∧
    (getK m.designTypes p = some DesignType.num →
      getSequelizeTypeByDesignType m p = Except.ok DataType.INTEGER) ∧
    (getK m.designTypes p = some DesignType.bool →
      getSequelizeTypeByDesignType m p = Except.ok DataType.BOOLEAN) ∧
    (getK m.designTypes p = some DesignType.date →
      getSequelizeTypeByDesignType m p = Except.ok DataType.DATE) ∧
    (∀ s, getK m.designTypes p = some (DesignType.other s) →
      getSequelizeTypeByDesignType m p = Except.error (unresolvedTypeMsg p)) ∧
    (getK m.designTypes p = none →
      getSequelizeTypeByDesignType m p = Except.error (unresolvedTypeMsg p)) ∧
    strContainsSub (unresolvedTypeMsg p) "cannot be automatically resolved" = true ∧
    strContainsSub (unresolvedTypeMsg p) p = true := by
  refine ⟨fun h => ?_, fun h => ?_, fun h => ?_, fun h => ?_,
    fun s h => ?_, fun h => ?_, ?_, ?_⟩
  · simp [getSequelizeTypeByDesignType, h]
  · simp [getSequelizeTypeByDesignType, h]
  · simp [getSequelizeTypeByDesignType, h]
  · simp [getSequelizeTypeByDesignType, h]
  · simp [getSequelizeTypeByDesignType, h]
  · simp [getSequelizeTypeByDesignType, h]
  · refine strContainsSub_of_parts _
      ("Specified type of property '" ++ (p ++ "' \x0a            "))
      "cannot be automatically resolved"
      " to a sequelize data type. Please\x0a            define the data type manually" ?_
    simp [unresolvedTypeMsg, String.data_append, List.append_assoc]
  · refine strContainsSub_of_parts _ "Specified type of property '" p
      ("' \x0a            " ++ ("cannot be automatically resolved" ++
        " to a sequelize data type. Please\x0a            define the data type manually")) ?_
    simp [unresolvedTypeMsg, String.data_append, List.append_assoc]

/-- Witness for C3: a property declared `String` resolves to the string column
type, and a property with a plain-object design type throws the
"cannot be automatically resolved" error. -/
theorem C3_design_type_mapping_witness :
    (getK (freshMeta "U" [("name", DesignType.str),
        ("meta", DesignType.other "Object")]).designTypes "name" =
      some DesignType.str ∧
      getSequelizeTypeByDesignType
        (freshMeta "U" [("name", DesignType.str), ("meta", DesignType.other "Object")])
        "name" = Except.ok DataType.STRING) ∧
    (getK (freshMeta "U" [("name", DesignType.str),
        ("meta", DesignType.other "Object")]).designTypes "meta" =
      some (DesignType.other "Object") ∧
      getSequelizeTypeByDesignType
        (freshMeta "U" [("name", DesignType.str), ("meta", DesignType.other "Object")])
        "meta" = Except.error (unresolvedTypeMsg "meta")) :=
  ⟨⟨by decide, (C3_design_type_mapping
      (freshMeta "U" [("name", DesignType.str), ("meta", DesignType.other "Object")])
      "name").1 (by decide)⟩,
   ⟨by decide, ((C3_design_type_mapping
      (freshMeta "U" [("name", DesignType.str), ("meta", DesignType.other "Object")])
      "meta").2.2.2.2.1) "Object" (by decide)⟩⟩

/-- Counterexample to claim C4 as stated: in the sequence
`setOptions {timestamps: true}; setOptions {}` the latest supplied value for
`timestamps` is `true`, yet the stored record holds `timestamps: false`,
because a fresh `setOptions` call discards the earlier record and re-applies
the default. -/
theorem C4_latest_supplied_value_not_stored :
    latestSuppliedTimestamps
        [OptCall.set [("timestamps", JSVal.bool true)], OptCall.set []] =
      some (JSVal.bool true) ∧
    (getOptions (applyOptCalls (freshMeta "U" [])
        [OptCall.set [("timestamps", JSVal.bool true)], OptCall.set []])).bind
      (fun o => getK o "timestamps") = some (JSVal.bool false) ∧
    some (JSVal.bool false) ≠ some (JSVal.bool true) := by
  decide

theorem optCall_first (m : Meta) (c : OptCall) (hc : KeysNodup c.obj)
    (h0 : getOptions m = none) :
    ∃ o', getOptions (applyOptCall m c) = some o' ∧ KeysNodup o' ∧
      getK o' "timestamps" = some (tsStep (JSVal.bool false) c) := by
  have hD : getK (objAssign [] DEFAULT_OPTIONS) "timestamps" = some (JSVal.bool false) := by
    decide
  have hDnd : KeysNodup (objAssign [] DEFAULT_OPTIONS) := by decide
  cases c with
  | set obj =>
    refine ⟨objAssign (objAssign [] DEFAULT_OPTIONS) obj, rfl,
      keysNodup_objAssign _ _ hDnd, ?_⟩
    rw [getK_objAssign obj _ _ hc, hD]
    cases h : getK obj "timestamps" <;> simp [tsStep, h, Option.or]
  | add obj =>
    have h0f : m.options = none := h0
    have hopts : getOptions (applyOptCall m (OptCall.add obj)) =
        some (objAssign (objAssign [] DEFAULT_OPTIONS) (objAssign [] obj)) := by
      simp [applyOptCall, addOptions, setOptions, getOptions, h0f]
    refine ⟨objAssign (objAssign [] DEFAULT_OPTIONS) (objAssign [] obj), hopts,
      keysNodup_objAssign _ _ hDnd, ?_⟩
    have hinner : KeysNodup (objAssign [] obj) := keysNodup_objAssign [] obj (by decide)
    rw [getK_objAssign (objAssign [] obj) _ _ hinner, hD,
      getK_objAssign obj [] _ hc]
    cases h : getK obj "timestamps" <;> simp [tsStep, h, getK, Option.or]

theorem optCall_step (m : Meta) (c : OptCall) (hc : KeysNodup c.obj)
    (o : Obj) (acc : JSVal)
    (ho : getOptions m = some o) (hoNd : KeysNodup o)
    (hts : getK o "timestamps" = some acc) :
    ∃ o', getOptions (applyOptCall m c) = some o' ∧ KeysNodup o' ∧
      getK o' "timestamps" = some (tsStep acc c) := by
  have hD : getK (objAssign [] DEFAULT_OPTIONS) "timestamps" = some (JSVal.bool false) := by
    decide
  have hDnd : KeysNodup (objAssign [] DEFAULT_OPTIONS) := by decide
  cases c with
  | set obj =>
    refine ⟨objAssign (objAssign [] DEFAULT_OPTIONS) obj, rfl,
      keysNodup_objAssign _ _ hDnd, ?_⟩
    rw [getK_objAssign obj _ _ hc, hD]
    cases h : getK obj "timestamps" <;> simp [tsStep, h, Option.or]
  | add obj =>
    have hof : m.options = some o := ho
    have hopts : getOptions (applyOptCall m (OptCall.add obj)) =
        some (objAssign (objAssign [] DEFAULT_OPTIONS) (objAssign o obj)) := by
      simp [applyOptCall, addOptions, setOptions, getOptions, hof]
    refine ⟨objAssign (objAssign [] DEFAULT_OPTIONS) (objAssign o obj), hopts,
      keysNodup_objAssign _ _ hDnd, ?_⟩
    have hinner : KeysNodup (objAssign o obj) := keysNodup_objAssign o obj hoNd
    rw [getK_objAssign (objAssign o obj) _ _ hinner, hD,
      getK_objAssign obj o _ hc, hts]
    cases h : getK obj "timestamps" <;> simp [tsStep, h, Option.or]

theorem optCalls_rest (cs : List OptCall) (hnd : ∀ c ∈ cs, KeysNodup c.obj)
    (m : Meta) (o : Obj) (acc : JSVal)
    (ho : getOptions m = some o) (hoNd : KeysNodup o)
    (hts : getK o "timestamps" = some acc) :
    ∃ o', getOptions (applyOptCalls m cs) = some o' ∧ KeysNodup o' ∧
      getK o' "timestamps" = some (cs.foldl tsStep acc) := by
  induction cs generalizing m o acc with
  | nil => exact ⟨o, ho, hoNd, hts⟩
  | cons c cs ih =>
    obtain ⟨o1, ho1, hnd1, hts1⟩ :=
      optCall_step m c (hnd c (by simp)) o acc ho hoNd hts
    obtain ⟨o', h1, h2, h3⟩ :=
      ih (fun c' h => hnd c' (by simp [h])) (applyOptCall m c) o1 _ ho1 hnd1 hts1
    exact ⟨o', h1, h2, h3⟩

/-- Claim C4, amended: starting from a class with no stored options, after any
nonempty sequence of `setOptions`/`addOptions` calls the stored record always
contains the `timestamps` key; its value is obtained by folding the calls —
a `setOptions` call stores its supplied `timestamps` value, or `false` when it
supplies none (discarding any earlier value), and an `addOptions` call stores
its supplied value, or keeps the previous one. -/
theorem C4_timestamps_invariant (m : Meta) (cs : List OptCall)
    (h0 : getOptions m = none) (hne : cs ≠ [])
    (hnd : ∀ c ∈ cs, KeysNodup c.obj) :
    ∃ o, getOptions (applyOptCalls m cs) = some o ∧
      getK o "timestamps" = some (timestampsSpec cs) := by
  cases cs with
  | nil => exact absurd rfl hne
  | cons c cs' =>
    obtain ⟨o1, ho1, hnd1, hts1⟩ := optCall_first m c (hnd c (by simp)) h0
    obtain ⟨o', h1, h2, h3⟩ :=
      optCalls_rest cs' (fun c' h => hnd c' (by simp [h]))
        (applyOptCall m c) o1 _ ho1 hnd1 hts1
    exact ⟨o', h1, h3⟩

/-- Witness for the amended C4: one `setOptions` call without a `timestamps`
key followed by an `addOptions` call that supplies one. -/
theorem C4_timestamps_invariant_witness :
    getOptions (freshMeta "U" []) = none ∧
    ([OptCall.set [("paranoid", JSVal.bool true)],
      OptCall.add [("timestamps", JSVal.bool true)]] ≠ ([] : List OptCall)) ∧
    (∀ c ∈ [OptCall.set [("paranoid", JSVal.bool true)],
      OptCall.add [("timestamps", JSVal.bool true)]], KeysNodup c.obj) ∧
    (∃ o, getOptions (applyOptCalls (freshMeta "U" [])
        [OptCall.set [("paranoid", JSVal.bool true)],
         OptCall.add [("timestamps", JSVal.bool true)]]) = some o ∧
      getK o "timestamps" = some (timestampsSpec
        [OptCall.set [("paranoid", JSVal.bool true)],
         OptCall.add [("timestamps", JSVal.bool true)]])) :=
  ⟨rfl, by simp, by decide,
    C4_timestamps_invariant (freshMeta "U" [])
      [OptCall.set [("paranoid", JSVal.bool true)],
       OptCall.add [("timestamps", JSVal.bool true)]]
      rfl (by simp) (by decide)⟩

end SequelizeTS
